/-
Verification of the memoizing call cache implemented in
`gofast/tools/funcutils.py` (`memoize`, `_apply_eviction_policy`).

The Python code is embedded shallowly:

* Python values that can appear as call arguments are modelled by `PyVal`
  (integers, strings, `None`, and lists of integers; a list is the one
  non-hashable representative, exactly as in Python).
* The cache key `key = args + tuple(kwargs.items())` is a `List KeyComponent`
  keeping positional arguments and keyword `(name, value)` pairs in supplied
  order.
* The mutable closure state (`memo` dict and `cache_keys` list) is a
  `CacheState`, threaded explicitly.  The Python dict is an association list
  with Python's dict semantics (`dictGet?`, `dictSet`, `dictPop`).
* Exceptions are the explicit error type `PyError`; a Python call either
  returns, raises, or (for the self-deadlock on the non-reentrant
  `threading.Lock`) hangs — `CallOutcome`.
* The underlying (wrapped) function is a parameter `f : Key → Except PyError
  PyVal`: a deterministic function of its arguments that may raise.  Each
  simulated call reports how many times `f` was invoked (`invoked`).

Two layers are modelled.  `memoizedBody` is the cache logic inside the
`with lock:` block of `memoized`, translated line by line.  `wrappedCall` is
the callable actually returned by `memoize`, including the behaviour of
`with lock:` itself: when `thread_safe=False` the closure variable `lock` is
`None` and `with None:` raises a `TypeError` before anything else runs; when
`thread_safe=True` the outer `wrapper` holds the non-reentrant lock while
`memoized` tries to acquire it again, so the call never completes.
-/
import Mathlib

set_option autoImplicit false

namespace GofastMemoize

/-- A Python value usable as a call argument.  `list` is the representative
non-hashable value (Python lists are unhashable regardless of contents). -/
inductive PyVal where
  | int : Int → PyVal
  | str : String → PyVal
  | list : List Int → PyVal
  | pyNone : PyVal
  deriving DecidableEq, Repr

/-- Python hashability of a `PyVal`: everything except a list. -/
def PyVal.hashable : PyVal → Bool
  | .list _ => false
  | _ => true

/-- One component of a cache key: a positional argument, or a keyword
`(name, value)` item from `kwargs.items()`. -/
inductive KeyComponent where
  | pos : PyVal → KeyComponent
  | kw : String → PyVal → KeyComponent
  deriving DecidableEq, Repr

/-- A `(name, value)` tuple is hashable iff the value is (strings are). -/
def KeyComponent.hashable : KeyComponent → Bool
  | .pos v => v.hashable
  | .kw _ v => v.hashable

/-- The cache key: `key = args + tuple(kwargs.items())`
(funcutils.py line 268).  Tuple construction itself never raises. -/
def composeKey (args : List PyVal) (kwargs : List (String × PyVal)) :
    List KeyComponent :=
  args.map KeyComponent.pos ++ kwargs.map fun p => KeyComponent.kw p.1 p.2

/-- Abbreviation for cache keys. -/
abbrev Key := List KeyComponent

/-- Hashing a tuple hashes every component, so a key is hashable iff all of
its components are.  `key in memo` raises `TypeError` otherwise. -/
def keyHashable (key : Key) : Bool := key.all KeyComponent.hashable

/-- The Python exceptions the embedded code can raise.  `user` is an
exception raised by the wrapped function itself, carrying an identifying
payload. -/
inductive PyError where
  /-- `with lock:` when `lock` is `None`: `TypeError: 'NoneType' object does
  not support the context manager protocol`. -/
  | typeErrorCtx : PyError
  /-- `TypeError: unhashable type` from `key in memo`. -/
  | typeErrorUnhashable : PyError
  /-- `IndexError: pop from empty list` from `cache_keys.pop(0)`. -/
  | indexError : PyError
  /-- `ValueError("Unsupported eviction policy. Expected 'LRU' or 'FIFO'.")`
  raised by `_apply_eviction_policy`. -/
  | valueErrorPolicy : PyError
  /-- `ValueError` from `cache_keys.index(key)` when the key is absent. -/
  | valueErrorIndex : PyError
  /-- An exception raised by the wrapped function. -/
  | user : Nat → PyError
  deriving DecidableEq, Repr

/-- The Python class name of each modelled exception. -/
def PyError.className : PyError → String
  | .typeErrorCtx => "TypeError"
  | .typeErrorUnhashable => "TypeError"
  | .indexError => "IndexError"
  | .valueErrorPolicy => "ValueError"
  | .valueErrorIndex => "ValueError"
  | .user _ => "UserException"

/-- The `memo` dict of the closure: an association list with unique keys
(insertion order), as Python dicts behave. -/
abbrev Memo := List (Key × PyVal)

/-- `memo[key]` / `key in memo` lookup. -/
def dictGet? : Memo → Key → Option PyVal
  | [], _ => none
  | (k, v) :: rest, key => if k = key then some v else dictGet? rest key

/-- `memo[key] = result`: overwrite in place if present, else append. -/
def dictSet : Memo → Key → PyVal → Memo
  | [], key, v => [(key, v)]
  | (k, w) :: rest, key, v =>
      if k = key then (k, v) :: rest else (k, w) :: dictSet rest key v

/-- `memo.pop(key, None)`: drop the entry for `key` if present. -/
def dictPop : Memo → Key → Memo
  | [], _ => []
  | (k, v) :: rest, key => if k = key then rest else (k, v) :: dictPop rest key

/-- The keys of the `memo` dict, in insertion order. -/
def keysOf (memo : Memo) : List Key := memo.map Prod.fst

/-- The configuration captured by the `memoize(...)` decorator call. -/
structure MemoConfig where
  cache_limit : Option Nat
  eviction_policy : String
  thread_safe : Bool
  deriving DecidableEq, Repr

/-- The mutable closure state built by `decorator`: `memo = {}` and
`cache_keys = []`. -/
structure CacheState where
  memo : Memo
  cache_keys : List Key
  deriving DecidableEq, Repr

/-- The state right after `decorator(func)` runs. -/
def initState : CacheState := ⟨[], []⟩

/-- `_apply_eviction_policy(eviction_policy, cache_keys)`
(funcutils.py lines 297–309).  Both recognised policies run
`cache_keys.pop(0)` (which raises `IndexError` on an empty list); any other
name raises `ValueError`.  Returns the popped key and the remaining list. -/
def _apply_eviction_policy (eviction_policy : String) (cache_keys : List Key) :
    Except PyError (Key × List Key) :=
  if eviction_policy = "LRU" then
    match cache_keys with
    | [] => .error .indexError
    | k :: rest => .ok (k, rest)
  else if eviction_policy = "FIFO" then
    match cache_keys with
    | [] => .error .indexError
    | k :: rest => .ok (k, rest)
  else
    .error .valueErrorPolicy

/-- `cache_keys.pop(cache_keys.index(key))`: remove the first occurrence. -/
def removeFirst : List Key → Key → List Key
  | [], _ => []
  | k :: rest, key => if k = key then rest else k :: removeFirst rest key

/-- The capacity check on a cache miss (funcutils.py lines 275–278), inlined
in `memoized`:

```
if cache_limit is not None and len(cache_keys) >= cache_limit:
    oldest_key = _apply_eviction_policy(eviction_policy, cache_keys)
    memo.pop(oldest_key, None)
```

Any exception from `_apply_eviction_policy` escapes before `memo.pop`, so on
error the state is unchanged. -/
def evictIfFull (cfg : MemoConfig) (s : CacheState) : Except PyError CacheState :=
  match cfg.cache_limit with
  | some limit =>
      if s.cache_keys.length ≥ limit then
        match _apply_eviction_policy cfg.eviction_policy s.cache_keys with
        | .error e => .error e
        | .ok (oldest_key, rest) => .ok ⟨dictPop s.memo oldest_key, rest⟩
      else .ok s
  | none => .ok s

/-- The result of one simulated call: the outcome, the state the closure
variables are left in, and how many times the wrapped function ran. -/
structure CallResult where
  outcome : Except PyError PyVal
  state : CacheState
  invoked : Nat
  deriving Repr

/-- The body of `memoized` inside `with lock:` (funcutils.py lines 268–282),
translated clause by clause:

```
if key in memo:                      -- raises TypeError if key unhashable
    if eviction_policy == 'LRU':
        cache_keys.append(cache_keys.pop(cache_keys.index(key)))
    return memo[key]
if cache_limit is not None and len(cache_keys) >= cache_limit:
    oldest_key = _apply_eviction_policy(eviction_policy, cache_keys)
    memo.pop(oldest_key, None)
result = func(*args, **kwargs)
memo[key] = result
cache_keys.append(key)
return result
```
-/
def memoizedBody (cfg : MemoConfig) (f : Key → Except PyError PyVal)
    (s : CacheState) (key : Key) : CallResult :=
  if ¬ keyHashable key then
    ⟨.error .typeErrorUnhashable, s, 0⟩
  else
    match dictGet? s.memo key with
    | some v =>
        if cfg.eviction_policy = "LRU" then
          if key ∈ s.cache_keys then
            ⟨.ok v, { s with cache_keys := removeFirst s.cache_keys key ++ [key] }, 0⟩
          else
            ⟨.error .valueErrorIndex, s, 0⟩
        else
          ⟨.ok v, s, 0⟩
    | none =>
        match evictIfFull cfg s with
        | .error e => ⟨.error e, s, 0⟩
        | .ok s₁ =>
            match f key with
            | .error e => ⟨.error e, s₁, 1⟩
            | .ok result =>
                ⟨.ok result,
                 ⟨dictSet s₁.memo key result, s₁.cache_keys ++ [key]⟩, 1⟩

/-- What a simulated Python call can do: return a value, raise, or never
complete (block forever on a lock). -/
inductive CallOutcome where
  | ret : PyVal → CallOutcome
  | raise : PyError → CallOutcome
  | hangs : CallOutcome
  deriving DecidableEq, Repr

/-- The function `memoized` itself (funcutils.py lines 267–282), entered with
`lockHeld` recording whether the calling thread already holds the closure's
lock.  `key = args + tuple(kwargs.items())` always succeeds; then
`with lock:` raises `TypeError` when `lock` is `None` (i.e.
`thread_safe=False`), blocks forever when the thread already holds the
non-reentrant `threading.Lock`, and otherwise runs the body holding it. -/
def memoizedCall (cfg : MemoConfig) (f : Key → Except PyError PyVal)
    (lockHeld : Bool) (s : CacheState)
    (args : List PyVal) (kwargs : List (String × PyVal)) :
    CallOutcome × CacheState × Nat :=
  let key := composeKey args kwargs
  if cfg.thread_safe then
    if lockHeld then
      (.hangs, s, 0)
    else
      let r := memoizedBody cfg f s key
      (match r.outcome with
       | .ok v => .ret v
       | .error e => .raise e, r.state, r.invoked)
  else
    (.raise .typeErrorCtx, s, 0)

/-- The `wrapper` closure returned when `thread_safe=True`
(funcutils.py lines 287–291): it acquires the lock (`with lock:`), so
`memoized` runs with `lockHeld = true`. -/
def wrapperCall (cfg : MemoConfig) (f : Key → Except PyError PyVal)
    (s : CacheState) (args : List PyVal) (kwargs : List (String × PyVal)) :
    CallOutcome × CacheState × Nat :=
  memoizedCall cfg f true s args kwargs

/-- One call to the callable returned by `memoize`: `memoized` directly when
`lock is None`, else `wrapper` (funcutils.py lines 284–291). -/
def wrappedCall (cfg : MemoConfig) (f : Key → Except PyError PyVal)
    (s : CacheState) (args : List PyVal) (kwargs : List (String × PyVal)) :
    CallOutcome × CacheState × Nat :=
  if cfg.thread_safe then
    wrapperCall cfg f s args kwargs
  else
    memoizedCall cfg f false s args kwargs

/-- Constructing the wrapped callable: `decorator(func)` only builds the
closure state (`memo = {}`, `cache_keys = []`, the optional lock) and defines
the inner functions; no configuration is inspected and nothing can raise. -/
def memoizeConstruct (cfg : MemoConfig) :
    Except PyError (MemoConfig × CacheState) :=
  .ok (cfg, initState)

/-- Run a sequence of executions of the `memoized` body (one per requested
key), threading the closure state. -/
def runBodyCalls (cfg : MemoConfig) (f : Key → Except PyError PyVal)
    (s : CacheState) : List Key → CacheState
  | [] => s
  | k :: ks => runBodyCalls cfg f (memoizedBody cfg f s k).state ks

/-- A convenient total underlying function for concrete scenarios. -/
def constFun : Key → Except PyError PyVal := fun _ => .ok .pyNone

/-- The key of a call with a single positional integer argument. -/
def intKey (n : Int) : Key := [KeyComponent.pos (PyVal.int n)]

/-- An underlying function that always raises, for concrete scenarios. -/
def raisingFun : Key → Except PyError PyVal := fun _ => .error (.user 7)

/-- Consistency of the closure state: the eviction queue (`cache_keys`) has
no duplicates, the store's key list has no duplicates, both hold exactly the
same set of keys, and they have the same length. -/
structure CacheInv (s : CacheState) : Prop where
  nodupQ : s.cache_keys.Nodup
  nodupM : (keysOf s.memo).Nodup
  sameMem : ∀ k, k ∈ s.cache_keys ↔ k ∈ keysOf s.memo
  lenEq : s.cache_keys.length = s.memo.length

theorem cacheInv_init : CacheInv initState := by
  constructor <;> simp [initState, keysOf]

theorem removeFirst_sublist (l : List Key) (key : Key) :
    (removeFirst l key).Sublist l := by
  induction l with
  | nil => simp [removeFirst]
  | cons k rest ih =>
      by_cases hk : k = key
      · simp only [removeFirst, if_pos hk]
        exact List.sublist_cons_self k rest
      · simpa [removeFirst, hk] using ih.cons₂ k

theorem nodup_removeFirst {l : List Key} (key : Key) (h : l.Nodup) :
    (removeFirst l key).Nodup :=
  (removeFirst_sublist l key).nodup h

theorem mem_removeFirst {l : List Key} {key a : Key} (h : l.Nodup) :
    a ∈ removeFirst l key ↔ a ∈ l ∧ a ≠ key := by
  induction l with
  | nil => simp [removeFirst]
  | cons k rest ih =>
      rw [List.nodup_cons] at h
      by_cases hk : k = key
      · subst hk
        simp only [removeFirst, if_pos rfl]
        constructor
        · intro ha
          exact ⟨List.mem_cons_of_mem _ ha, fun hak => h.1 (hak ▸ ha)⟩
        · rintro ⟨ha, hak⟩
          rcases List.mem_cons.mp ha with h1 | h1
          · exact absurd h1 hak
          · exact h1
      · simp only [removeFirst, if_neg hk, List.mem_cons, ih h.2]
        constructor
        · rintro (rfl | ⟨ha, hak⟩)
          · exact ⟨Or.inl rfl, hk⟩
          · exact ⟨Or.inr ha, hak⟩
        · rintro ⟨rfl | ha, hak⟩
          · exact Or.inl rfl
          · exact Or.inr ⟨ha, hak⟩

theorem length_removeFirst {l : List Key} {key : Key} (h : key ∈ l) :
    (removeFirst l key).length + 1 = l.length := by
  induction l with
  | nil => cases h
  | cons k rest ih =>
      by_cases hk : k = key
      · simp [removeFirst, hk]
      · have hmem : key ∈ rest := by
          rcases List.mem_cons.mp h with h1 | h1
          · exact absurd h1.symm hk
          · exact h1
        simp [removeFirst, hk, ih hmem]

theorem dictGet?_eq_none {memo : Memo} {key : Key} :
    dictGet? memo key = none ↔ key ∉ keysOf memo := by
  induction memo with
  | nil => simp [dictGet?, keysOf]
  | cons p rest ih =>
      obtain ⟨k, v⟩ := p
      by_cases hk : k = key
      · simp [dictGet?, hk, keysOf]
      · simp only [dictGet?, if_neg hk, keysOf, List.map_cons, List.mem_cons, ih]
        constructor
        · intro h hmem
          rcases hmem with rfl | hm
          · exact hk rfl
          · exact h hm
        · intro h hm
          exact h (Or.inr hm)

theorem keysOf_dictPop (memo : Memo) (key : Key) :
    keysOf (dictPop memo key) = removeFirst (keysOf memo) key := by
  induction memo with
  | nil => simp [dictPop, keysOf, removeFirst]
  | cons p rest ih =>
      obtain ⟨k, v⟩ := p
      by_cases hk : k = key
      · simp [dictPop, hk, keysOf, removeFirst]
      · have ih' := ih
        simp only [keysOf] at ih'
        simp [dictPop, hk, keysOf, removeFirst, ih']

theorem dictSet_of_not_mem {memo : Memo} {key : Key} (v : PyVal)
    (h : key ∉ keysOf memo) : dictSet memo key v = memo ++ [(key, v)] := by
  induction memo with
  | nil => simp [dictSet]
  | cons p rest ih =>
      obtain ⟨k, w⟩ := p
      simp only [keysOf, List.map_cons, List.mem_cons] at h
      push_neg at h
      have hk : ¬ k = key := fun hke => h.1 hke.symm
      simp [dictSet, hk, ih (by simpa [keysOf] using h.2)]

theorem dictGet?_dictPop_none {memo : Memo} {key k : Key}
    (h : dictGet? memo key = none) : dictGet? (dictPop memo k) key = none := by
  induction memo with
  | nil => simp [dictPop, dictGet?]
  | cons p rest ih =>
      obtain ⟨k', v⟩ := p
      by_cases hk : k' = key
      · simp [dictGet?, hk] at h
      · simp only [dictGet?, if_neg hk] at h
        by_cases hk' : k' = k
        · simpa [dictPop, hk'] using h
        · simp [dictPop, hk', dictGet?, hk, ih h]

theorem nodup_append_single {l : List Key} {a : Key} (h : l.Nodup) (ha : a ∉ l) :
    (l ++ [a]).Nodup := by
  simp [List.nodup_append, h, ha]

theorem _apply_eviction_policy_ok {p : String} {ck rest : List Key} {k : Key}
    (h : _apply_eviction_policy p ck = .ok (k, rest)) : ck = k :: rest := by
  unfold _apply_eviction_policy at h
  by_cases h1 : p = "LRU"
  · simp only [if_pos h1] at h
    cases ck with
    | nil => cases h
    | cons a l => simpa using h
  · by_cases h2 : p = "FIFO"
    · simp only [if_neg h1, if_pos h2] at h
      cases ck with
      | nil => cases h
      | cons a l => simpa using h
    · simp [if_neg h1, if_neg h2] at h

theorem evict_inv {s : CacheState} {oldest : Key} {rest : List Key}
    (h : CacheInv s) (hck : s.cache_keys = oldest :: rest) :
    CacheInv ⟨dictPop s.memo oldest, rest⟩ := by
  have hmemM : oldest ∈ keysOf s.memo :=
    (h.sameMem oldest).mp (by rw [hck]; exact List.mem_cons_self _ _)
  have hnodupQ : oldest ∉ rest ∧ rest.Nodup := by
    have := h.nodupQ
    rw [hck, List.nodup_cons] at this
    exact this
  constructor
  · exact hnodupQ.2
  · rw [keysOf_dictPop]
    exact nodup_removeFirst _ h.nodupM
  · intro k
    rw [keysOf_dictPop, mem_removeFirst h.nodupM]
    constructor
    · intro hk
      have hkck : k ∈ s.cache_keys := by
        rw [hck]; exact List.mem_cons_of_mem _ hk
      exact ⟨(h.sameMem k).mp hkck, fun hke => hnodupQ.1 (hke ▸ hk)⟩
    · rintro ⟨hk, hne⟩
      have hkck : k ∈ s.cache_keys := (h.sameMem k).mpr hk
      rw [hck] at hkck
      rcases List.mem_cons.mp hkck with rfl | hm
      · exact absurd rfl hne
      · exact hm
  · have h1 : (removeFirst (keysOf s.memo) oldest).length + 1 =
        (keysOf s.memo).length := length_removeFirst hmemM
    have h2 : (keysOf s.memo).length = s.memo.length := by simp [keysOf]
    have h3 : s.cache_keys.length = s.memo.length := h.lenEq
    have h4 : (dictPop s.memo oldest).length =
        (keysOf (dictPop s.memo oldest)).length := by simp [keysOf]
    rw [hck] at h3
    simp only [List.length_cons] at h3
    show rest.length = (dictPop s.memo oldest).length
    rw [h4, keysOf_dictPop]
    omega

theorem insert_inv {s : CacheState} {key : Key} (result : PyVal)
    (h : CacheInv s) (hk : key ∉ keysOf s.memo) :
    CacheInv ⟨dictSet s.memo key result, s.cache_keys ++ [key]⟩ := by
  have hkQ : key ∉ s.cache_keys := fun hm => hk ((h.sameMem key).mp hm)
  have hset := @dictSet_of_not_mem s.memo key result hk
  constructor
  · exact nodup_append_single h.nodupQ hkQ
  · show (keysOf (dictSet s.memo key result)).Nodup
    rw [hset]
    have hkeys : keysOf (s.memo ++ [(key, result)]) = keysOf s.memo ++ [key] := by
      simp [keysOf]
    rw [hkeys]
    exact nodup_append_single h.nodupM hk
  · intro k
    show k ∈ s.cache_keys ++ [key] ↔ k ∈ keysOf (dictSet s.memo key result)
    rw [hset]
    simp [keysOf, h.sameMem k]
  · show (s.cache_keys ++ [key]).length = (dictSet s.memo key result).length
    rw [hset]
    simp [h.lenEq]

theorem evictIfFull_inv {cfg : MemoConfig} {s s₁ : CacheState}
    (h : CacheInv s) (hstep : evictIfFull cfg s = .ok s₁) : CacheInv s₁ := by
  unfold evictIfFull at hstep
  split at hstep
  · split at hstep
    · split at hstep
      · cases hstep
      · rename_i oldest rest heq
        cases hstep
        exact evict_inv h (_apply_eviction_policy_ok heq)
    · cases hstep
      exact h
  · cases hstep
    exact h

theorem evictIfFull_ok {cfg : MemoConfig} (s : CacheState)
    (hp : cfg.eviction_policy = "LRU" ∨ cfg.eviction_policy = "FIFO")
    (hcap : cfg.cache_limit = none ∨
      ∃ cap, cfg.cache_limit = some cap ∧ 0 < cap) :
    ∃ s₁, evictIfFull cfg s = .ok s₁ := by
  unfold evictIfFull
  split
  · rename_i limit hlim
    rcases hcap with hnone | ⟨cap, hcap, hpos⟩
    · rw [hnone] at hlim
      cases hlim
    · rw [hcap] at hlim
      injection hlim with hlim'
      subst hlim'
      by_cases hge : s.cache_keys.length ≥ cap
      · rw [if_pos hge]
        cases hck : s.cache_keys with
        | nil =>
            rw [hck] at hge
            simp at hge
            omega
        | cons k rest =>
            have happ : _apply_eviction_policy cfg.eviction_policy (k :: rest)
                = .ok (k, rest) := by
              unfold _apply_eviction_policy
              rcases hp with hp | hp
              · rw [if_pos hp]
              · rw [if_neg (by rw [hp]; decide), if_pos hp]
            rw [happ]
            exact ⟨_, rfl⟩
      · rw [if_neg hge]
        exact ⟨s, rfl⟩
  · exact ⟨s, rfl⟩

theorem evictIfFull_not_mem {cfg : MemoConfig} {s s₁ : CacheState} {key : Key}
    (h0 : key ∉ keysOf s.memo)
    (hstep : evictIfFull cfg s = .ok s₁) : key ∉ keysOf s₁.memo := by
  unfold evictIfFull at hstep
  split at hstep
  · split at hstep
    · split at hstep
      · cases hstep
      · rename_i oldest rest heq
        cases hstep
        show key ∉ keysOf (dictPop s.memo oldest)
        rw [keysOf_dictPop]
        intro hm
        exact h0 ((removeFirst_sublist _ _).subset hm)
    · cases hstep
      exact h0
  · cases hstep
    exact h0

theorem memoizedBody_inv (cfg : MemoConfig) (f : Key → Except PyError PyVal)
    (s : CacheState) (key : Key) (h : CacheInv s) :
    CacheInv (memoizedBody cfg f s key).state := by
  unfold memoizedBody
  split
  · exact h
  · split
    · rename_i v hget
      split
      · split
        · rename_i hmem
          refine ⟨?_, h.nodupM, ?_, ?_⟩
          · exact nodup_append_single (nodup_removeFirst _ h.nodupQ)
              (fun hm => ((mem_removeFirst h.nodupQ).mp hm).2 rfl)
          · intro k
            show k ∈ removeFirst s.cache_keys key ++ [key] ↔ k ∈ keysOf s.memo
            rw [List.mem_append, mem_removeFirst h.nodupQ, ← h.sameMem k,
              List.mem_singleton]
            constructor
            · rintro (⟨hk, _⟩ | rfl)
              · exact hk
              · exact hmem
            · intro hk
              by_cases hke : k = key
              · exact Or.inr hke
              · exact Or.inl ⟨hk, hke⟩
          · show (removeFirst s.cache_keys key ++ [key]).length = s.memo.length
            have := @length_removeFirst s.cache_keys key hmem
            have hlen := h.lenEq
            simp only [List.length_append, List.length_singleton]
            omega
        · exact h
      · exact h
    · rename_i hget
      split
      · exact h
      · rename_i s₁ hstep
        split
        · exact evictIfFull_inv h hstep
        · exact insert_inv _ (evictIfFull_inv h hstep)
            (evictIfFull_not_mem (dictGet?_eq_none.mp hget) hstep)

theorem evictIfFull_length {cfg : MemoConfig} {s s₁ : CacheState} {cap : Nat}
    (hcap : cfg.cache_limit = some cap) (h : CacheInv s)
    (hle : s.memo.length ≤ cap) (hstep : evictIfFull cfg s = .ok s₁) :
    s₁.memo.length < cap := by
  unfold evictIfFull at hstep
  split at hstep
  · rename_i limit hlim
    rw [hcap] at hlim
    injection hlim with hlim'
    subst hlim'
    split at hstep
    · rename_i hge
      split at hstep
      · cases hstep
      · rename_i oldest rest heq
        cases hstep
        have hck := _apply_eviction_policy_ok heq
        have hmemM : oldest ∈ keysOf s.memo :=
          (h.sameMem oldest).mp (by rw [hck]; exact List.mem_cons_self _ _)
        have h1 : (removeFirst (keysOf s.memo) oldest).length + 1 =
            (keysOf s.memo).length := length_removeFirst hmemM
        have h2 : (keysOf s.memo).length = s.memo.length := by simp [keysOf]
        have h3 : s.cache_keys.length = s.memo.length := h.lenEq
        have h4 : (dictPop s.memo oldest).length =
            (keysOf (dictPop s.memo oldest)).length := by simp [keysOf]
        have h5 : 1 ≤ s.cache_keys.length := by
          rw [hck]
          simp
        show (dictPop s.memo oldest).length < cap
        rw [h4, keysOf_dictPop]
        omega
    · rename_i hge
      cases hstep
      have h3 : s.cache_keys.length = s.memo.length := h.lenEq
      omega
  · rename_i hlim
    rw [hcap] at hlim
    cases hlim

theorem memoizedBody_length {cfg : MemoConfig} (f : Key → Except PyError PyVal)
    (s : CacheState) (key : Key) {cap : Nat}
    (hcap : cfg.cache_limit = some cap) (h : CacheInv s)
    (hle : s.memo.length ≤ cap) :
    (memoizedBody cfg f s key).state.memo.length ≤ cap := by
  unfold memoizedBody
  split
  · exact hle
  · split
    · split
      · split
        · exact hle
        · exact hle
      · exact hle
    · rename_i hget
      split
      · exact hle
      · rename_i s₁ hstep
        have hlt := evictIfFull_length hcap h hle hstep
        split
        · exact le_of_lt hlt
        · rename_i result hf
          have hkeyAbsent : key ∉ keysOf s₁.memo :=
            evictIfFull_not_mem (dictGet?_eq_none.mp hget) hstep
          show (dictSet s₁.memo key result).length ≤ cap
          rw [dictSet_of_not_mem _ hkeyAbsent]
          simp only [List.length_append, List.length_singleton]
          omega

theorem runBodyCalls_inv (cfg : MemoConfig) (f : Key → Except PyError PyVal)
    (keys : List Key) (s : CacheState) (h : CacheInv s) :
    CacheInv (runBodyCalls cfg f s keys) := by
  induction keys generalizing s with
  | nil => exact h
  | cons k ks ih => exact ih _ (memoizedBody_inv cfg f s k h)

theorem runBodyCalls_length (cfg : MemoConfig) (f : Key → Except PyError PyVal)
    (keys : List Key) (s : CacheState) {cap : Nat}
    (hcap : cfg.cache_limit = some cap) (h : CacheInv s)
    (hle : s.memo.length ≤ cap) :
    (runBodyCalls cfg f s keys).memo.length ≤ cap := by
  induction keys generalizing s with
  | nil => exact hle
  | cons k ks ih =>
      exact ih _ (memoizedBody_inv cfg f s k h)
        (memoizedBody_length f s k hcap h hle)

/-- C1: the claim (calling the wrapped function twice with the same
arguments invokes the underlying function exactly once and both calls return
equal results) fails on the code.  With the default configuration
(`cache_limit=None, eviction_policy='LRU', thread_safe=False`) every call
raises `TypeError` from `with lock:` with `lock = None`, invoking the
underlying function zero times and returning nothing; with
`thread_safe=True` every call self-deadlocks.  The code contradicts its own
docstring example (`fibonacci(10)` printing `55` with `thread_safe=True`). -/
theorem claim_C1_hit_idempotence_fails :
    wrappedCall ⟨none, "LRU", false⟩ constFun initState [PyVal.int 1] [] =
      (.raise .typeErrorCtx, initState, 0) ∧
    wrappedCall ⟨none, "LRU", true⟩ constFun initState [PyVal.int 1] [] =
      (.hangs, initState, 0) :=
  ⟨rfl, rfl⟩

/-- C2: when `thread_safe` is false (the default), every call to the
memoized function raises (`with lock:` with `lock = None`) before probing
the cache or invoking the underlying function: the outcome is a raised
`TypeError`, the cache state is unchanged, and the underlying function runs
zero times, for every configuration, function, state and argument list. -/
theorem claim_C2_lock_none_always_raises (limit : Option Nat) (policy : String)
    (f : Key → Except PyError PyVal) (s : CacheState)
    (args : List PyVal) (kwargs : List (String × PyVal)) :
    wrappedCall ⟨limit, policy, false⟩ f s args kwargs =
      (.raise .typeErrorCtx, s, 0) :=
  rfl

/-- C3: when `thread_safe` is true, `wrapper` acquires the single
non-reentrant lock and `memoized` then attempts to acquire it again, so no
call ever completes and the underlying function is never invoked: the
outcome is `hangs` with zero invocations, for every configuration, function,
state and argument list. -/
theorem claim_C3_self_deadlock (limit : Option Nat) (policy : String)
    (f : Key → Except PyError PyVal) (s : CacheState)
    (args : List PyVal) (kwargs : List (String × PyVal)) :
    wrappedCall ⟨limit, policy, true⟩ f s args kwargs = (.hangs, s, 0) :=
  rfl

/-- C4 counterexample: with the unsupported policy `"MRU"` the
`memoize`/`wrap` call does not fail — construction succeeds and returns a
cache — and the wrapped function is later invoked normally on a miss below
capacity, contradicting «fails immediately at construction time ... before
any invocation of the wrapped function, and no cache is constructed». -/
theorem claim_C4_counterexample :
    memoizeConstruct ⟨some 2, "MRU", false⟩ =
      .ok (⟨some 2, "MRU", false⟩, initState) ∧
    (memoizedBody ⟨some 2, "MRU", false⟩ constFun initState (intKey 1)).outcome =
      .ok PyVal.pyNone ∧
    (memoizedBody ⟨some 2, "MRU", false⟩ constFun initState (intKey 1)).invoked
      = 1 :=
  ⟨rfl, rfl, rfl⟩

/-- C4 (amended): an unsupported `eviction_policy` is not rejected at
`memoize(...)` time — construction always succeeds and builds the empty
cache.  The error is a `ValueError` (there is no `UnsupportedPolicyError`
class), raised lazily by `_apply_eviction_policy`, i.e. only when a call
misses while `len(cache_keys)` has reached `cache_limit`; that failing call
leaves the state unchanged and never invokes the underlying function. -/
theorem claim_C4_amended (policy : String) (h1 : policy ≠ "LRU")
    (h2 : policy ≠ "FIFO") (limit : Option Nat) (t : Bool) (ck : List Key)
    (f : Key → Except PyError PyVal) (s : CacheState) (key : Key) (cap : Nat)
    (hh : keyHashable key = true) (hmiss : dictGet? s.memo key = none)
    (hfull : s.cache_keys.length ≥ cap) :
    memoizeConstruct ⟨limit, policy, t⟩ = .ok (⟨limit, policy, t⟩, initState) ∧
    _apply_eviction_policy policy ck = .error .valueErrorPolicy ∧
    memoizedBody ⟨some cap, policy, t⟩ f s key =
      ⟨.error .valueErrorPolicy, s, 0⟩ := by
  refine ⟨rfl, ?_, ?_⟩
  · unfold _apply_eviction_policy
    rw [if_neg h1, if_neg h2]
  · have hev : evictIfFull ⟨some cap, policy, t⟩ s = .error .valueErrorPolicy := by
      unfold evictIfFull
      have happ : _apply_eviction_policy policy s.cache_keys =
          .error .valueErrorPolicy := by
        unfold _apply_eviction_policy
        rw [if_neg h1, if_neg h2]
      simp only [if_pos hfull, happ]
    simp [memoizedBody, hh, hmiss, hev]

/-- C4 amended, witnessed at `policy = "MRU"`, `cap = 0`, a miss on the
empty cache (which is trivially at capacity 0). -/
theorem claim_C4_amended_witness :
    ("MRU" ≠ "LRU" ∧ "MRU" ≠ "FIFO" ∧ keyHashable (intKey 1) = true ∧
      dictGet? initState.memo (intKey 1) = none ∧
      initState.cache_keys.length ≥ 0) ∧
    memoizedBody ⟨some 0, "MRU", false⟩ constFun initState (intKey 1) =
      ⟨.error .valueErrorPolicy, initState, 0⟩ :=
  ⟨⟨by decide, by decide, rfl, rfl, Nat.zero_le _⟩,
   (claim_C4_amended "MRU" (by decide) (by decide) none false [] constFun
      initState (intKey 1) 0 rfl rfl (Nat.zero_le _)).2.2⟩

/-- C5 counterexample: no `UnhashableArgumentError` exists in the code.
Calling the wrapped function (default `thread_safe=False`) with the
non-hashable argument `[1]` raises the `TypeError` coming from
`with None:` — class `TypeError`, not `UnhashableArgumentError` — and even
the cache logic proper raises a plain `TypeError` (unhashable type) at the
`key in memo` probe. -/
theorem claim_C5_counterexample :
    wrappedCall ⟨none, "LRU", false⟩ constFun initState [PyVal.list [1]] [] =
      (.raise .typeErrorCtx, initState, 0) ∧
    PyError.className .typeErrorCtx ≠ "UnhashableArgumentError" ∧
    (memoizedBody ⟨none, "LRU", false⟩ constFun initState
        (composeKey [PyVal.list [1]] [])).outcome = .error .typeErrorUnhashable ∧
    PyError.className .typeErrorUnhashable ≠ "UnhashableArgumentError" :=
  ⟨rfl, by decide, rfl, by decide⟩

/-- C5 (amended): a non-hashable key makes the memoized cache logic raise a
plain `TypeError` (not an `UnhashableArgumentError`, which the code does not
define) at the `key in memo` probe, before the underlying function is
invoked and leaving the cache store and eviction queue unchanged. -/
theorem claim_C5_amended (cfg : MemoConfig) (f : Key → Except PyError PyVal)
    (s : CacheState) (key : Key) (hk : keyHashable key = false) :
    memoizedBody cfg f s key = ⟨.error .typeErrorUnhashable, s, 0⟩ ∧
    PyError.className .typeErrorUnhashable = "TypeError" := by
  constructor
  · simp [memoizedBody, hk]
  · rfl

/-- C5 amended, witnessed at the non-hashable single argument `[1]`. -/
theorem claim_C5_amended_witness :
    keyHashable [KeyComponent.pos (PyVal.list [1])] = false ∧
    memoizedBody ⟨none, "LRU", false⟩ constFun initState
        [KeyComponent.pos (PyVal.list [1])] =
      ⟨.error .typeErrorUnhashable, initState, 0⟩ :=
  ⟨rfl,
   (claim_C5_amended ⟨none, "LRU", false⟩ constFun initState
      [KeyComponent.pos (PyVal.list [1])] rfl).1⟩

/-- C6: if the underlying function raises on a cache miss (valid policy,
capacity unbounded or positive), the exception propagates unchanged, the
function ran exactly once, no entry is inserted for that key, and a
subsequent call with the same arguments invokes the underlying function
again. -/
theorem claim_C6_failure_non_poisoning (cfg : MemoConfig)
    (f : Key → Except PyError PyVal) (s : CacheState) (key : Key) (e : PyError)
    (hp : cfg.eviction_policy = "LRU" ∨ cfg.eviction_policy = "FIFO")
    (hcap : cfg.cache_limit = none ∨
      ∃ cap, cfg.cache_limit = some cap ∧ 0 < cap)
    (hh : keyHashable key = true)
    (hmiss : dictGet? s.memo key = none)
    (hf : f key = .error e) :
    (memoizedBody cfg f s key).outcome = .error e ∧
    (memoizedBody cfg f s key).invoked = 1 ∧
    dictGet? (memoizedBody cfg f s key).state.memo key = none ∧
    (memoizedBody cfg f (memoizedBody cfg f s key).state key).invoked = 1 := by
  obtain ⟨s₁, hstep⟩ := evictIfFull_ok s hp hcap
  have hbody : memoizedBody cfg f s key = ⟨.error e, s₁, 1⟩ := by
    simp [memoizedBody, hh, hmiss, hstep, hf]
  have hmiss₁ : dictGet? s₁.memo key = none :=
    dictGet?_eq_none.mpr
      (evictIfFull_not_mem (dictGet?_eq_none.mp hmiss) hstep)
  obtain ⟨s₂, hstep₂⟩ := evictIfFull_ok s₁ hp hcap
  have hbody₂ : memoizedBody cfg f s₁ key = ⟨.error e, s₂, 1⟩ := by
    simp [memoizedBody, hh, hmiss₁, hstep₂, hf]
  rw [hbody]
  exact ⟨rfl, rfl, hmiss₁, by rw [hbody₂]⟩

/-- C6, witnessed at capacity 1, policy LRU, a first call on key `5` whose
underlying function raises `user 7`. -/
theorem claim_C6_witness :
    (keyHashable (intKey 5) = true ∧
      dictGet? initState.memo (intKey 5) = none ∧
      raisingFun (intKey 5) = .error (.user 7)) ∧
    (memoizedBody ⟨some 1, "LRU", false⟩ raisingFun initState
        (intKey 5)).outcome = .error (.user 7) ∧
    (memoizedBody ⟨some 1, "LRU", false⟩ raisingFun initState
        (intKey 5)).invoked = 1 ∧
    dictGet? (memoizedBody ⟨some 1, "LRU", false⟩ raisingFun initState
        (intKey 5)).state.memo (intKey 5) = none ∧
    (memoizedBody ⟨some 1, "LRU", false⟩ raisingFun
        (memoizedBody ⟨some 1, "LRU", false⟩ raisingFun initState
          (intKey 5)).state (intKey 5)).invoked = 1 :=
  ⟨⟨rfl, rfl, rfl⟩,
   claim_C6_failure_non_poisoning ⟨some 1, "LRU", false⟩ raisingFun initState
     (intKey 5) (.user 7) (Or.inl rfl) (Or.inr ⟨1, rfl, Nat.one_pos⟩)
     rfl rfl rfl⟩

theorem keyHashable_intKey (n : Int) : keyHashable (intKey n) = true := rfl

theorem intKey_inj {m n : Int} : intKey m = intKey n ↔ m = n := by
  simp [intKey]

/-- C7: with capacity 2 and policy LRU, for any distinct keys `A`, `B`, `C`
(single integer arguments), running the cache logic on `A`, `B`, a hit on
`A`, then `C` leaves `B` evicted while `A` and `C` remain cached. -/
theorem claim_C7_lru_retention (a b c : Int) (hab : a ≠ b) (hac : a ≠ c)
    (hbc : b ≠ c) :
    dictGet? (runBodyCalls ⟨some 2, "LRU", false⟩ constFun initState
        [intKey a, intKey b, intKey a, intKey c]).memo (intKey b) = none ∧
    dictGet? (runBodyCalls ⟨some 2, "LRU", false⟩ constFun initState
        [intKey a, intKey b, intKey a, intKey c]).memo (intKey a) =
      some PyVal.pyNone ∧
    dictGet? (runBodyCalls ⟨some 2, "LRU", false⟩ constFun initState
        [intKey a, intKey b, intKey a, intKey c]).memo (intKey c) =
      some PyVal.pyNone := by
  have hstate : runBodyCalls ⟨some 2, "LRU", false⟩ constFun initState
      [intKey a, intKey b, intKey a, intKey c] =
      ⟨[(intKey a, PyVal.pyNone), (intKey c, PyVal.pyNone)],
       [intKey a, intKey c]⟩ := by
    simp [runBodyCalls, memoizedBody, evictIfFull, _apply_eviction_policy,
      dictGet?, dictSet, dictPop, removeFirst, keyHashable_intKey, intKey_inj,
      initState, constFun, hab, hac, hbc]
  rw [hstate]
  refine ⟨?_, ?_, ?_⟩
  · simp [dictGet?, intKey_inj, hab, Ne.symm hbc]
  · simp [dictGet?]
  · simp [dictGet?, intKey_inj, hac]

/-- C7, witnessed at the distinct keys 1, 2, 3. -/
theorem claim_C7_witness :
    ((1 : Int) ≠ 2 ∧ (1 : Int) ≠ 3 ∧ (2 : Int) ≠ 3) ∧
    dictGet? (runBodyCalls ⟨some 2, "LRU", false⟩ constFun initState
        [intKey 1, intKey 2, intKey 1, intKey 3]).memo (intKey 2) = none ∧
    dictGet? (runBodyCalls ⟨some 2, "LRU", false⟩ constFun initState
        [intKey 1, intKey 2, intKey 1, intKey 3]).memo (intKey 1) =
      some PyVal.pyNone ∧
    dictGet? (runBodyCalls ⟨some 2, "LRU", false⟩ constFun initState
        [intKey 1, intKey 2, intKey 1, intKey 3]).memo (intKey 3) =
      some PyVal.pyNone :=
  ⟨⟨by decide, by decide, by decide⟩,
   claim_C7_lru_retention 1 2 3 (by decide) (by decide) (by decide)⟩

/-- C8: with capacity 2 and policy FIFO, the same scenario (insert `A`,
insert `B`, hit `A`, insert `C`) evicts `A` — the first inserted key —
despite the intervening hit, and the hit leaves the eviction queue
unchanged (`[A, B]` after the third call): only insertion order matters. -/
theorem claim_C8_fifo_eviction (a b c : Int) (hab : a ≠ b) (hac : a ≠ c)
    (hbc : b ≠ c) :
    (runBodyCalls ⟨some 2, "FIFO", false⟩ constFun initState
        [intKey a, intKey b, intKey a]).cache_keys = [intKey a, intKey b] ∧
    dictGet? (runBodyCalls ⟨some 2, "FIFO", false⟩ constFun initState
        [intKey a, intKey b, intKey a, intKey c]).memo (intKey a) = none ∧
    dictGet? (runBodyCalls ⟨some 2, "FIFO", false⟩ constFun initState
        [intKey a, intKey b, intKey a, intKey c]).memo (intKey b) =
      some PyVal.pyNone ∧
    dictGet? (runBodyCalls ⟨some 2, "FIFO", false⟩ constFun initState
        [intKey a, intKey b, intKey a, intKey c]).memo (intKey c) =
      some PyVal.pyNone := by
  have hstate3 : runBodyCalls ⟨some 2, "FIFO", false⟩ constFun initState
      [intKey a, intKey b, intKey a] =
      ⟨[(intKey a, PyVal.pyNone), (intKey b, PyVal.pyNone)],
       [intKey a, intKey b]⟩ := by
    simp [runBodyCalls, memoizedBody, evictIfFull, _apply_eviction_policy,
      dictGet?, dictSet, dictPop, removeFirst, keyHashable_intKey, intKey_inj,
      initState, constFun, hab, hac, hbc]
  have hstate : runBodyCalls ⟨some 2, "FIFO", false⟩ constFun initState
      [intKey a, intKey b, intKey a, intKey c] =
      ⟨[(intKey b, PyVal.pyNone), (intKey c, PyVal.pyNone)],
       [intKey b, intKey c]⟩ := by
    simp [runBodyCalls, memoizedBody, evictIfFull, _apply_eviction_policy,
      dictGet?, dictSet, dictPop, removeFirst, keyHashable_intKey, intKey_inj,
      initState, constFun, hab, hac, hbc]
  rw [hstate3, hstate]
  refine ⟨rfl, ?_, ?_, ?_⟩
  · simp [dictGet?, intKey_inj, Ne.symm hab, Ne.symm hac]
  · simp [dictGet?]
  · simp [dictGet?, intKey_inj, hbc]

/-- C8, witnessed at the distinct keys 1, 2, 3. -/
theorem claim_C8_witness :
    ((1 : Int) ≠ 2 ∧ (1 : Int) ≠ 3 ∧ (2 : Int) ≠ 3) ∧
    (runBodyCalls ⟨some 2, "FIFO", false⟩ constFun initState
        [intKey 1, intKey 2, intKey 1]).cache_keys = [intKey 1, intKey 2] ∧
    dictGet? (runBodyCalls ⟨some 2, "FIFO", false⟩ constFun initState
        [intKey 1, intKey 2, intKey 1, intKey 3]).memo (intKey 1) = none ∧
    dictGet? (runBodyCalls ⟨some 2, "FIFO", false⟩ constFun initState
        [intKey 1, intKey 2, intKey 1, intKey 3]).memo (intKey 2) =
      some PyVal.pyNone ∧
    dictGet? (runBodyCalls ⟨some 2, "FIFO", false⟩ constFun initState
        [intKey 1, intKey 2, intKey 1, intKey 3]).memo (intKey 3) =
      some PyVal.pyNone :=
  ⟨⟨by decide, by decide, by decide⟩,
   claim_C8_fifo_eviction 1 2 3 (by decide) (by decide) (by decide)⟩

/-- C9: for every sequence of executions of the cache logic starting from
the fresh cache, with a positive integer capacity configured, the number of
entries in the cache store never exceeds the capacity. -/
theorem claim_C9_capacity_bound (cfg : MemoConfig)
    (f : Key → Except PyError PyVal) (keys : List Key) (cap : Nat)
    (hcap : cfg.cache_limit = some cap) (_hpos : 0 < cap) :
    (runBodyCalls cfg f initState keys).memo.length ≤ cap :=
  runBodyCalls_length cfg f keys initState hcap cacheInv_init
    (by simp [initState])

/-- C9, witnessed at capacity 1 with three distinct keys. -/
theorem claim_C9_witness :
    (⟨some 1, "LRU", false⟩ : MemoConfig).cache_limit = some 1 ∧ 0 < 1 ∧
    (runBodyCalls ⟨some 1, "LRU", false⟩ constFun initState
        [intKey 1, intKey 2, intKey 3]).memo.length ≤ 1 :=
  ⟨rfl, Nat.one_pos,
   claim_C9_capacity_bound ⟨some 1, "LRU", false⟩ constFun
     [intKey 1, intKey 2, intKey 3] 1 rfl Nat.one_pos⟩

/-- C10: after every completed execution of the cache logic from the fresh
cache (any configuration, function and key sequence), the eviction queue
`cache_keys` has no duplicates and contains exactly the same set of keys as
the store `memo`. -/
theorem claim_C10_queue_matches_store (cfg : MemoConfig)
    (f : Key → Except PyError PyVal) (keys : List Key) :
    (runBodyCalls cfg f initState keys).cache_keys.Nodup ∧
    ∀ k, k ∈ (runBodyCalls cfg f initState keys).cache_keys ↔
      k ∈ keysOf (runBodyCalls cfg f initState keys).memo :=
  ⟨(runBodyCalls_inv cfg f keys initState cacheInv_init).nodupQ,
   (runBodyCalls_inv cfg f keys initState cacheInv_init).sameMem⟩

end GofastMemoize
